import Mathlib

/-!
# Verification of the ray-tracer core (ModPhoenix/ray_tracer)

A shallow embedding, over exact rationals, of the rendering core:
tuple algebra (`src/tuple.rs`), 4×4 matrices (`src/matrix.rs`),
shapes (`src/shapes/…`), intersections and the refraction walk
(`ray_tracer/src/intersections.rs`), Phong lighting (`src/material.rs`),
recursive world shading (`src/world.rs`) and the camera render loop
(`src/camera.rs`).

Modelling conventions, used consistently below:

* `f64` is modelled by `ℚ`.  `f64::sqrt` is modelled by `fsqrt`, an exact
  integer-Newton square root on numerator and denominator; it agrees with
  `f64::sqrt` on the perfect-square inputs at which the development ever
  evaluates it.  `f64::powf` is modelled by `powf`, exact at integer
  exponents (the only exponents at which any theorem evaluates it).
* A Rust panic (`Option::unwrap` on `None` in `World::shade_hit` /
  `World::is_shadowed`) is modelled by propagating `none` through
  `Option`-valued functions.
* The `f64::NAN` initial values of `n1`/`n2` in
  `Intersection::prepare_computations` are modelled by `Option ℚ`
  being `none`.
* Trait objects (`dyn Shape`, the `Pattern` trait) are modelled by
  records whose shape/pattern-specific methods are function fields;
  `PartialEq for dyn Shape` compares ids only, which is modelled by
  explicit boolean comparisons on the `id` field.
* Rust's stable `Vec::sort_by` is modelled by `List.insertionSort`
  (also stable, hence pointwise equal on every input on which the Rust
  comparator does not panic; the comparator is total on `ℚ`).
* `Vec<Color>` pixel storage is modelled by `List Color` with
  `List.set` / `List.getD`; every access made by `render` is proved to
  be in bounds, where the Rust indexing would equally not panic.
-/

namespace RayTracer

/-- One Newton step loop for integer square roots, fuelled so that it is
structurally recursive and kernel-reducible. -/
def sqrtIter : ℕ → ℕ → ℕ → ℕ
| 0, _, x => x
| fuel + 1, n, x =>
  let next := (x + n / x) / 2
  if next < x then sqrtIter fuel n next else x

/-- Integer square root (floor), by Newton iteration. -/
def natSqrt (n : ℕ) : ℕ := sqrtIter (n + 2) n (n / 2 + 1)

/-- Models `f64::sqrt` on `ℚ`: exact on the nonnegative perfect squares at
which this development evaluates it (negative inputs, `NaN` in `f64`,
are mapped to `0`; no claim evaluates them). -/
def fsqrt (q : ℚ) : ℚ := mkRat (Int.ofNat (natSqrt q.num.toNat)) (natSqrt q.den)

/-- Models `f64::powf` on `ℚ`: exact at integer exponents, which are the
only exponents (`2.0`, `5.0`, and integral shininess values) at which any
theorem below evaluates it; fractional exponents, transcendental in
general, are mapped to `0`. -/
def powf (b e : ℚ) : ℚ := if e.den = 1 then b ^ e.num else 0

/-- Modelled from the spec: the `constants` module (`constants.rs`) is not
in `src`; the spec says only that "all zero-comparisons use a fixed small
epsilon" — the book-standard value `1e-5` is used.  No claim below depends
on the numeric value, only on its positivity. -/
def EPSILON : ℚ := 1 / 100000

/-- `Tuple` from `src/tuple.rs`: a 4-component homogeneous coordinate. -/
structure Tuple where
  x : ℚ
  y : ℚ
  z : ℚ
  w : ℚ
deriving DecidableEq

def Tuple.point (x y z : ℚ) : Tuple := ⟨x, y, z, 1⟩

def Tuple.vector (x y z : ℚ) : Tuple := ⟨x, y, z, 0⟩

instance : Add Tuple := ⟨fun a b => ⟨a.x + b.x, a.y + b.y, a.z + b.z, a.w + b.w⟩⟩

instance : Sub Tuple := ⟨fun a b => ⟨a.x - b.x, a.y - b.y, a.z - b.z, a.w - b.w⟩⟩

instance : Neg Tuple := ⟨fun a => ⟨-a.x, -a.y, -a.z, -a.w⟩⟩

instance : HMul Tuple ℚ Tuple := ⟨fun a r => ⟨a.x * r, a.y * r, a.z * r, a.w * r⟩⟩

def Tuple.dot (a b : Tuple) : ℚ := a.x * b.x + a.y * b.y + a.z * b.z + a.w * b.w

def Tuple.magnitude (t : Tuple) : ℚ :=
  fsqrt (powf t.x 2 + powf t.y 2 + powf t.z 2 + powf t.w 2)

/-- `normalize` divides componentwise by the magnitude (`ℚ` division by
zero yields `0` where `f64` would yield `NaN`; no claim observes this). -/
def Tuple.normalize (t : Tuple) : Tuple :=
  let m := t.magnitude
  ⟨t.x / m, t.y / m, t.z / m, t.w / m⟩

/-- Modelled from the spec: `Tuple::reflect` is called by `material.rs`
and `intersections.rs` but its definition is not in `src`; the spec lists
"reflect-about-normal" among the Tuple operations, the standard form
`v - normal * 2 * dot(v, normal)`. -/
def Tuple.reflect (v normal : Tuple) : Tuple := v - normal * (2 * Tuple.dot v normal)

/-- `Color` from `src/color/color.rs`. -/
structure Color where
  red : ℚ
  green : ℚ
  blue : ℚ
deriving DecidableEq

def Color.new_black : Color := ⟨0, 0, 0⟩

def Color.new_white : Color := ⟨1, 1, 1⟩

instance : Add Color := ⟨fun a b => ⟨a.red + b.red, a.green + b.green, a.blue + b.blue⟩⟩

instance : HMul Color ℚ Color := ⟨fun c r => ⟨c.red * r, c.green * r, c.blue * r⟩⟩

instance : Mul Color := ⟨fun a b => ⟨a.red * b.red, a.green * b.green, a.blue * b.blue⟩⟩

/-- 4×4 matrix from `src/matrix.rs` (`Matrix<4>`), as an index function. -/
def Matrix4 : Type := Fin 4 → Fin 4 → ℚ

instance : DecidableEq Matrix4 := by
  unfold Matrix4
  infer_instance

def Matrix4.identity : Matrix4 := fun i j => if i = j then 1 else 0

def Matrix4.transpose (m : Matrix4) : Matrix4 := fun i j => m j i

/-- `Matrix<4>::submatrix`: delete one row and one column (the index
shifting of `get_submatrix` is `Fin.succAbove` of the removed index). -/
def Matrix4.submatrix (m : Matrix4) (r c : Fin 4) : Fin 3 → Fin 3 → ℚ :=
  fun i j => m (r.succAbove i) (c.succAbove j)

def det2 (m : Fin 2 → Fin 2 → ℚ) : ℚ := m 0 0 * m 1 1 - m 0 1 * m 1 0

def submatrix3 (m : Fin 3 → Fin 3 → ℚ) (r c : Fin 3) : Fin 2 → Fin 2 → ℚ :=
  fun i j => m (r.succAbove i) (c.succAbove j)

def cofactor3 (m : Fin 3 → Fin 3 → ℚ) (r c : Fin 3) : ℚ :=
  let minor := det2 (submatrix3 m r c)
  if ((r : ℕ) + (c : ℕ)) % 2 = 0 then minor else -minor

def det3 (m : Fin 3 → Fin 3 → ℚ) : ℚ :=
  (List.finRange 3).foldl (fun det c => det + m 0 c * cofactor3 m 0 c) 0

def Matrix4.cofactor (m : Matrix4) (r c : Fin 4) : ℚ :=
  let minor := det3 (m.submatrix r c)
  if ((r : ℕ) + (c : ℕ)) % 2 = 0 then minor else -minor

def Matrix4.determinant (m : Matrix4) : ℚ :=
  (List.finRange 4).foldl (fun det c => det + m 0 c * m.cofactor 0 c) 0

/-- `Matrix<4>::inverse`: `result[col][row] = cofactor(row, col) / det`.
The source panics when the determinant is zero; here `ℚ` division by zero
yields `0` — no claim involves a singular transform, and the render
theorem (C9) applies the same total model on both of its sides. -/
def Matrix4.inverse (m : Matrix4) : Matrix4 :=
  fun col row => m.cofactor row col / m.determinant

def Matrix4.mulTuple (m : Matrix4) (t : Tuple) : Tuple :=
  ⟨m 0 0 * t.x + m 0 1 * t.y + m 0 2 * t.z + m 0 3 * t.w,
   m 1 0 * t.x + m 1 1 * t.y + m 1 2 * t.z + m 1 3 * t.w,
   m 2 0 * t.x + m 2 1 * t.y + m 2 2 * t.z + m 2 3 * t.w,
   m 3 0 * t.x + m 3 1 * t.y + m 3 2 * t.z + m 3 3 * t.w⟩

/-- `Matrix::identity().translation(x, y, z)` overwrites the three
translation entries of the receiver. -/
def Matrix4.translation (m : Matrix4) (x y z : ℚ) : Matrix4 :=
  fun i j =>
    if j = 3 then (if i = 0 then x else if i = 1 then y else if i = 2 then z else m i j)
    else m i j

/-- `Matrix::identity().scaling(x, y, z)` overwrites the three diagonal
scale entries of the receiver. -/
def Matrix4.scaling (m : Matrix4) (x y z : ℚ) : Matrix4 :=
  fun i j =>
    if i = 0 ∧ j = 0 then x
    else if i = 1 ∧ j = 1 then y
    else if i = 2 ∧ j = 2 then z
    else m i j

/-- `Ray` from `src/ray.rs`. -/
structure Ray where
  origin : Tuple
  direction : Tuple

def Ray.position (r : Ray) (t : ℚ) : Tuple := r.origin + r.direction * t

def Ray.transform (r : Ray) (m : Matrix4) : Ray :=
  ⟨m.mulTuple r.origin, m.mulTuple r.direction⟩

/-- The `Pattern` trait of `src/patterns/mod.rs`, as a record: a pattern
owns its transform and a procedural color function.  The closed variants
(stripe, gradient, ring, checkers, test) are particular values of this
record; no claim depends on a specific variant. -/
structure Pattern where
  transform : Matrix4
  pattern_at : Tuple → Color

/-- `Material` from `src/material.rs`. -/
structure Material where
  color : Color
  ambient : ℚ
  diffuse : ℚ
  specular : ℚ
  shininess : ℚ
  reflective : ℚ
  transparency : ℚ
  refractive_index : ℚ
  pattern : Option Pattern

/-- `Material::default()`. -/
def Material.default : Material :=
  { color := ⟨1, 1, 1⟩
    ambient := 1 / 10
    diffuse := 9 / 10
    specular := 9 / 10
    shininess := 200
    reflective := 0
    transparency := 0
    refractive_index := 1
    pattern := none }

/-- `Light` from `src/light.rs`. -/
structure Light where
  position : Tuple
  intensity : Color

/-- The `Shape` trait of `shapes/mod.rs`, as a record: a unique id
(`Uuid` modelled by `ℕ`), a transform, a material, and the two
shape-specific local operations as function fields.  `local_intersect`
in the source returns `Option<Vec<Intersection>>` whose elements are
`self.intersection(t)`; here the shape-specific part returns the list of
roots `t` and `Shape.local_intersect` pairs each root with the shape. -/
structure Shape where
  id : ℕ
  transform : Matrix4
  material : Material
  localIntersectT : Ray → Option (List ℚ)
  localNormalAt : Tuple → Tuple

/-- `PartialEq for dyn Shape` compares ids only. -/
def Shape.beq (a b : Shape) : Bool := a.id == b.id

/-- `normal_at` default trait method: world point → local point, local
normal, inverse-transpose back, zero the `w` component, renormalize. -/
def Shape.normal_at (s : Shape) (world_point : Tuple) : Tuple :=
  let local_point := s.transform.inverse.mulTuple world_point
  let local_normal := s.localNormalAt local_point
  let world_normal := s.transform.inverse.transpose.mulTuple local_normal
  Tuple.normalize ⟨world_normal.x, world_normal.y, world_normal.z, 0⟩

/-- `Intersection` from `ray_tracer/src/intersections.rs`. -/
structure Intersection where
  t : ℚ
  object : Shape

/-- `Shape::intersection(t)`. -/
def Shape.intersection (s : Shape) (t : ℚ) : Intersection := ⟨t, s⟩

/-- `local_intersect`: the shape-specific roots, each paired with the
shape itself (`self.intersection(t)` in the source). -/
def Shape.local_intersect (s : Shape) (ray : Ray) : Option (List Intersection) :=
  (s.localIntersectT ray).map (fun ts => ts.map (fun t => s.intersection t))

/-- `intersect` default trait method: transform the ray by the inverse of
the shape's transform, then delegate to `local_intersect`. -/
def Shape.intersect (s : Shape) (ray : Ray) : Option (List Intersection) :=
  s.local_intersect (ray.transform s.transform.inverse)

/-- `Sphere::local_intersect` from `src/shapes/sphere.rs`: quadratic
against the unit sphere at the origin. -/
def sphereLocalIntersectT (local_ray : Ray) : Option (List ℚ) :=
  let sphere_to_ray := local_ray.origin - Tuple.point 0 0 0
  let a := Tuple.dot local_ray.direction local_ray.direction
  let b := 2 * Tuple.dot local_ray.direction sphere_to_ray
  let c := Tuple.dot sphere_to_ray sphere_to_ray - 1
  let discriminant := powf b 2 - 4 * a * c
  if discriminant < 0 then none
  else some [(-b - fsqrt discriminant) / (2 * a), (-b + fsqrt discriminant) / (2 * a)]

/-- A sphere as a `Shape` (`Sphere::new` plus the trait dispatch):
`local_normal_at` is `local_point - point(0,0,0)`. -/
def Sphere.new (id : ℕ) (transform : Matrix4) (material : Material) : Shape :=
  ⟨id, transform, material, sphereLocalIntersectT, fun p => p - Tuple.point 0 0 0⟩

/-- `Plane::local_intersect` from `ray_tracer/src/shapes/plane.rs`:
no root when the direction's y-component is within `EPSILON` of zero,
else the single root `-origin.y / direction.y`. -/
def planeLocalIntersectT (ray : Ray) : Option (List ℚ) :=
  if |ray.direction.y| < EPSILON then none
  else some [-ray.origin.y / ray.direction.y]

/-- A plane as a `Shape` (`Plane::new` plus the trait dispatch):
`local_normal_at` is the constant vector `(0, 1, 0)`. -/
def Plane.new (id : ℕ) (transform : Matrix4) (material : Material) : Shape :=
  ⟨id, transform, material, planeLocalIntersectT, fun _ => Tuple.vector 0 1 0⟩

/-- `Intersections` from `ray_tracer/src/intersections.rs`: the
constructor sorts by `t` (Rust's stable `sort_by` with the total-on-`ℚ`
comparator, modelled by the stable `List.insertionSort`). -/
structure Intersections where
  data : List Intersection

def tLE (a b : Intersection) : Prop := a.t ≤ b.t

instance : DecidableRel tLE := fun a b => inferInstanceAs (Decidable (a.t ≤ b.t))

instance : IsTotal Intersection tLE := ⟨fun a b => le_total a.t b.t⟩

instance : IsTrans Intersection tLE := ⟨fun _ _ _ h h2 => le_trans h h2⟩

instance : IsRefl Intersection tLE := ⟨fun a => le_refl a.t⟩

def Intersections.new (intersections : List Intersection) : Intersections :=
  ⟨intersections.insertionSort tLE⟩

def Intersections.default : Intersections := Intersections.new []

/-- `Intersections::hit`: the first intersection with `t > 0` in the
stored (sorted) order. -/
def Intersections.hit (xs : Intersections) : Option Intersection :=
  xs.data.find? (fun intersection => decide (0 < intersection.t))

/-- `PartialEq for Intersection` (ray_tracer version): equal `t` and
equal object (`dyn Shape` equality = id equality). -/
def Intersection.beq (a b : Intersection) : Bool :=
  a.t == b.t && Shape.beq a.object b.object

/-- The `n1`/`n2` value read from the containment stack: `1.0` when the
stack is empty, else the refractive index of the material at its top
(`containers.last()`). -/
def stackIndex (containers : List Shape) : ℚ :=
  match containers.getLast? with
  | none => 1
  | some s => s.material.refractive_index

/-- Toggle `i.object` in the containment stack: remove every occurrence
if present (`into_iter().filter(..).collect()`), else push at the end. -/
def toggleContainer (containers : List Shape) (obj : Shape) : List Shape :=
  if containers.any (fun item => Shape.beq item obj) then
    containers.filter (fun item => !Shape.beq item obj)
  else containers ++ [obj]

/-- The `for i in xs.data()` loop of `prepare_computations` computing
`(n1, n2)`: at the target intersection `n1` is read from the stack before
the toggle and `n2` after it, then the loop breaks.  The loop ending
without meeting the target leaves both at their `f64::NAN` initial
values, modelled by `none`. -/
def refractionWalk (self : Intersection) :
    List Intersection → List Shape → Option ℚ × Option ℚ
| [], _ => (none, none)
| i :: rest, containers =>
  let isSelf := Intersection.beq i self
  let containers2 := toggleContainer containers i.object
  if isSelf then (some (stackIndex containers), some (stackIndex containers2))
  else refractionWalk self rest containers2

/-- `ComputedIntersection` from `ray_tracer/src/intersections.rs`
(`n1`, `n2` as `Option ℚ`, `none` modelling their `f64::NAN` initial
values). -/
structure ComputedIntersection where
  t : ℚ
  object : Shape
  point : Tuple
  over_point : Tuple
  under_point : Tuple
  normalv : Tuple
  eyev : Tuple
  reflectv : Tuple
  inside : Bool
  n1 : Option ℚ
  n2 : Option ℚ

/-- `Intersection::prepare_computations`. -/
def Intersection.prepare_computations (self : Intersection) (ray : Ray)
    (xs : Intersections) : ComputedIntersection :=
  let point := ray.position self.t
  let normalv0 := self.object.normal_at point
  let eyev := -ray.direction
  let inside : Bool := decide (Tuple.dot normalv0 eyev < 0)
  let normalv := if inside then -normalv0 else normalv0
  let over_point := point + normalv * EPSILON
  let under_point := point - normalv * EPSILON
  let reflectv := ray.direction.reflect normalv
  let nn := refractionWalk self xs.data []
  ⟨self.t, self.object, point, over_point, under_point, normalv, eyev,
   reflectv, inside, nn.1, nn.2⟩

/-- The final lines of `ComputedIntersection::schlick`:
`r0 = ((n1 - n2) / (n1 + n2)).powf(2.)` and the polynomial
`r0 + (1 - r0) * (1 - cos).powf(5.)`. -/
def schlickR0 (n1 n2 cos : ℚ) : ℚ :=
  let r0 := powf ((n1 - n2) / (n1 + n2)) 2
  r0 + (1 - r0) * powf (1 - cos) 5

/-- `ComputedIntersection::schlick` on actual refractive indices (the
source reads `self.n1`/`self.n2` directly; the `NaN` case is split off in
`ComputedIntersection.schlick`): when `n1 > n2` either return `1.0`
early (total internal reflection) or overwrite `cos` with the
transmitted cosine, then apply the polynomial. -/
def schlickAux (n1 n2 cos0 : ℚ) : ℚ :=
  if n2 < n1 then
    let n := n1 / n2
    let sin2_t := powf n 2 * (1 - powf cos0 2)
    if 1 < sin2_t then 1
    else schlickR0 n1 n2 (fsqrt (1 - sin2_t))
  else schlickR0 n1 n2 cos0

/-- `ComputedIntersection::schlick`: `1.0` under total internal
reflection, else the polynomial approximation (with `cos` replaced by the
transmitted cosine when `n1 > n2`).  `none` models the `NaN` result the
`f64` arithmetic produces from `NaN` indices; `color_at` never builds
such a `ComputedIntersection`. -/
def ComputedIntersection.schlick (c : ComputedIntersection) : Option ℚ :=
  match c.n1, c.n2 with
  | some n1, some n2 => some (schlickAux n1 n2 (Tuple.dot c.eyev c.normalv))
  | _, _ => none

/-- `Pattern::pattern_at_shape` (trait default method): world point →
object space via the shape's inverse transform, → pattern space via the
pattern's own inverse transform, then the procedural function. -/
def Pattern.pattern_at_shape (p : Pattern) (object : Shape) (world_point : Tuple) : Color :=
  let object_point := object.transform.inverse.mulTuple world_point
  let pattern_point := p.transform.inverse.mulTuple object_point
  p.pattern_at pattern_point

/-- `Material::lighting` from `src/material.rs`. -/
def Material.lighting (m : Material) (object : Shape) (light : Light)
    (point eyev normalv : Tuple) (in_shadow : Bool) : Color :=
  let color :=
    match m.pattern with
    | some pattern => pattern.pattern_at_shape object point
    | none => m.color
  let effective_color := color * light.intensity
  let lightv := (light.position - point).normalize
  let ambient := effective_color * m.ambient
  let light_dot_normal := Tuple.dot lightv normalv
  let ds :=
    if light_dot_normal < 0 then (Color.new_black, Color.new_black)
    else
      let diffuse := effective_color * m.diffuse * light_dot_normal
      let reflectv := (-lightv).reflect normalv
      let reflect_dot_eye := Tuple.dot reflectv eyev
      let specular :=
        if reflect_dot_eye ≤ 0 then Color.new_black
        else light.intensity * m.specular * powf reflect_dot_eye m.shininess
      (diffuse, specular)
  if in_shadow then ambient else ambient + ds.1 + ds.2

/-- `World` from `src/world.rs`. -/
structure World where
  light : Option Light
  objects : List Shape

/-- `World::intersect_world`: fold every object's `intersect` into one
list (`acc.extend`), then sort through the `Intersections` constructor. -/
def World.intersect_world (w : World) (ray : Ray) : Intersections :=
  Intersections.new
    (w.objects.foldl
      (fun acc object =>
        match object.intersect ray with
        | some intersection => acc ++ intersection
        | none => acc)
      [])

/-- `World::is_shadowed`.  `self.light.as_ref().unwrap()` panics when the
light is absent: modelled by `none`. -/
def World.is_shadowed (w : World) (point : Tuple) : Option Bool :=
  match w.light with
  | none => none
  | some light =>
    let v := light.position - point
    let distance := v.magnitude
    let direction := v.normalize
    let r : Ray := ⟨point, direction⟩
    let intersections := w.intersect_world r
    match intersections.hit with
    | some intersection => some (decide (intersection.t < distance))
    | none => some false

/-- Body of `World::reflected_color`, abstracted over the recursive
`color_at` call at `remaining - 1` (`usize` arithmetic: the guard
`remaining <= 0` runs first, so the decrement never underflows). -/
def World.reflectedColorAux (w : World) (colorAtPrev : Ray → Option Color)
    (comps : ComputedIntersection) (remaining : ℕ) : Option Color :=
  if remaining = 0 ∨ comps.object.material.reflective = 0 then some Color.new_black
  else
    let reflect_ray : Ray := ⟨comps.over_point, comps.reflectv⟩
    match colorAtPrev reflect_ray with
    | some color => some (color * comps.object.material.reflective)
    | none => none

/-- Body of `World::refracted_color`, abstracted over the recursive
`color_at` call at `remaining - 1`.  The `comps.n1`/`comps.n2` reads are
split on the `Option`: the `none` (`NaN`) case, unreachable from
`color_at`, is modelled as the poisoned result `none`. -/
def World.refractedColorAux (w : World) (colorAtPrev : Ray → Option Color)
    (comps : ComputedIntersection) (remaining : ℕ) : Option Color :=
  if comps.object.material.transparency = 0 ∨ remaining = 0 then some Color.new_black
  else
    match comps.n1, comps.n2 with
    | some n1, some n2 =>
      let n_ratio := n1 / n2
      let cos_i := Tuple.dot comps.eyev comps.normalv
      let sin2_t := powf n_ratio 2 * (1 - powf cos_i 2)
      if 1 < sin2_t then some Color.new_black
      else
        let cos_t := fsqrt (1 - sin2_t)
        let direction := comps.normalv * (n_ratio * cos_i - cos_t) - comps.eyev * n_ratio
        let refract_ray : Ray := ⟨comps.under_point, direction⟩
        match colorAtPrev refract_ray with
        | some color => some (color * comps.object.material.transparency)
        | none => none
    | _, _ => none

/-- Body of `World::shade_hit`, abstracted over the recursive `color_at`
call at `remaining - 1`.  The light unwrap panics when the light is
absent (`none`). -/
def World.shadeHitAux (w : World) (colorAtPrev : Ray → Option Color)
    (comps : ComputedIntersection) (remaining : ℕ) : Option Color :=
  match w.is_shadowed comps.over_point with
  | none => none
  | some is_shadowed =>
    match w.light with
    | none => none
    | some light =>
      let surface_color :=
        comps.object.material.lighting comps.object light comps.over_point
          comps.eyev comps.normalv is_shadowed
      match w.reflectedColorAux colorAtPrev comps remaining with
      | none => none
      | some reflected_color =>
        match w.refractedColorAux colorAtPrev comps remaining with
        | none => none
        | some refracted_color =>
          let material := comps.object.material
          if 0 < material.reflective ∧ 0 < material.transparency then
            match comps.schlick with
            | some reflectance =>
              some (surface_color + reflected_color * reflectance
                + refracted_color * (1 - reflectance))
            | none => none
          else some (surface_color + reflected_color + refracted_color)

/-- Body of `World::color_at`, abstracted over the recursive call. -/
def World.colorAtAux (w : World) (colorAtPrev : Ray → Option Color)
    (ray : Ray) (remaining : ℕ) : Option Color :=
  let xs := w.intersect_world ray
  match xs.hit with
  | some intersection =>
    w.shadeHitAux colorAtPrev (intersection.prepare_computations ray xs) remaining
  | none => some Color.new_black

/-- `World::color_at`, by structural recursion on `remaining`.  At
`remaining = 0` neither recursive branch is reachable (both are guarded
by the `remaining <= 0` checks), so the callback passed there is inert. -/
def World.color_at (w : World) : ℕ → Ray → Option Color
| 0, ray => w.colorAtAux (fun _ => some Color.new_black) ray 0
| n + 1, ray => w.colorAtAux (fun r => w.color_at n r) ray (n + 1)

/-- `World::shade_hit` as in the source API: the recursive calls inside
go through `color_at(ray, remaining - 1)`. -/
def World.shade_hit (w : World) (comps : ComputedIntersection) (remaining : ℕ) :
    Option Color :=
  w.shadeHitAux (fun r => w.color_at (remaining - 1) r) comps remaining

/-- `World::reflected_color` as in the source API. -/
def World.reflected_color (w : World) (comps : ComputedIntersection) (remaining : ℕ) :
    Option Color :=
  w.reflectedColorAux (fun r => w.color_at (remaining - 1) r) comps remaining

/-- `World::refracted_color` as in the source API. -/
def World.refracted_color (w : World) (comps : ComputedIntersection) (remaining : ℕ) :
    Option Color :=
  w.refractedColorAux (fun r => w.color_at (remaining - 1) r) comps remaining

/-- `Canvas` from `src/canvas.rs`: width, height and a flat pixel vector
indexed by `y * width + x`. -/
structure Canvas where
  width : ℕ
  height : ℕ
  pixels : List Color

def Canvas.new (width height : ℕ) : Canvas :=
  ⟨width, height, List.replicate (width * height) Color.new_black⟩

/-- `Canvas::get` (`&self.pixels[y * width + x]`; the Rust index panics
out of bounds — every access made below is in bounds). -/
def Canvas.get (c : Canvas) (x y : ℕ) : Color :=
  c.pixels.getD (y * c.width + x) Color.new_black

/-- `Canvas::set` (`self.pixels[y * width + x] = color`). -/
def Canvas.set (c : Canvas) (x y : ℕ) (color : Color) : Canvas :=
  ⟨c.width, c.height, c.pixels.set (y * c.width + x) color⟩

/-- `Camera` from `src/camera.rs`.  `Camera::new` derives
`half_width`/`half_height`/`pixel_size` from the field of view through
`tan`, which is transcendental; the claims quantify over cameras with
arbitrary field values, so the constructor itself is not needed. -/
structure Camera where
  hsize : ℕ
  vsize : ℕ
  field_of_view : ℚ
  half_width : ℚ
  half_height : ℚ
  pixel_size : ℚ
  transform : Matrix4

/-- `Camera::ray_for_pixel`. -/
def Camera.ray_for_pixel (c : Camera) (px py : ℕ) : Ray :=
  let xoffset := ((px : ℚ) + 1 / 2) * c.pixel_size
  let yoffset := ((py : ℚ) + 1 / 2) * c.pixel_size
  let world_x := c.half_width - xoffset
  let world_y := c.half_height - yoffset
  let inverse_transform := c.transform.inverse
  let pixel := inverse_transform.mulTuple (Tuple.point world_x world_y (-1))
  let origin := inverse_transform.mulTuple (Tuple.point 0 0 0)
  let direction := (pixel - origin).normalize
  ⟨origin, direction⟩

/-- One pixel of the render loop: compute the color through
`color_at(ray, 5)` and write it (a `color_at` panic aborts `render`). -/
def Camera.renderPixel (c : Camera) (w : World) (image : Canvas) (x y : ℕ) :
    Option Canvas :=
  match w.color_at 5 (c.ray_for_pixel x y) with
  | some color => some (image.set x y color)
  | none => none

/-- `Camera::render`: the row-major double loop
`for y in 0..vsize { for x in 0..hsize { … } }` over a fresh canvas. -/
def Camera.render (c : Camera) (w : World) : Option Canvas :=
  (List.range c.vsize).foldlM
    (fun image y => (List.range c.hsize).foldlM (fun img x => c.renderPixel w img x y) image)
    (Canvas.new c.hsize c.vsize)

/-! ## Concrete scenes used by the theorems below -/

/-- `Sphere::default()`: identity transform, default material. -/
def defaultSphere : Shape := Sphere.new 0 Matrix4.identity Material.default

def dummyIntersection : Intersection := ⟨0, defaultSphere⟩

/-- The spec's hit example: t-values `{5, 7, -3, 2}` on one sphere. -/
def hitExample : List Intersection :=
  [defaultSphere.intersection 5, defaultSphere.intersection 7,
   defaultSphere.intersection (-3), defaultSphere.intersection 2]

/-! ## C1, C7: hit selection and the sort invariant -/

lemma find?_pos_min {l : List Intersection} (hp : List.Pairwise tLE l)
    {x : Intersection}
    (hfind : l.find? (fun i => decide (0 < i.t)) = some x) :
    ∀ i ∈ l, 0 < i.t → x.t ≤ i.t := by
  induction l with
  | nil => simp at hfind
  | cons a rest ih =>
    by_cases ha : 0 < a.t
    · rw [List.find?_cons_of_pos _ (by simpa using ha)] at hfind
      cases hfind
      intro i hi hip
      rcases List.mem_cons.mp hi with h | h
      · exact h ▸ le_refl _
      · exact (List.pairwise_cons.mp hp).1 i h
    · rw [List.find?_cons_of_neg _ (by simpa using ha)] at hfind
      intro i hi hip
      rcases List.mem_cons.mp hi with h | h
      · exact absurd (h ▸ hip) ha
      · exact ih (List.Pairwise.of_cons hp) hfind i h hip

/-- C1: for every `Intersections` collection, `hit()` is the intersection
with the smallest `t` strictly greater than `0` when one exists, and
`none` when every `t` is at most `0`; in particular the spec's example
collection with t-values `{5, 7, -3, 2}` yields a hit with `t = 2`. -/
theorem hit_smallest_positive (l : List Intersection) :
    ((∀ i ∈ l, i.t ≤ 0) → (Intersections.new l).hit = none) ∧
    (∀ j ∈ l, 0 < j.t →
      ∃ x, (Intersections.new l).hit = some x ∧ 0 < x.t ∧
        ∀ i ∈ l, 0 < i.t → x.t ≤ i.t) ∧
    (Intersections.new hitExample).hit.map Intersection.t = some 2 := by
  have hperm := List.perm_insertionSort tLE l
  have hsorted := List.sorted_insertionSort tLE l
  refine ⟨?_, ?_, ?_⟩
  · intro hall
    apply List.find?_eq_none.mpr
    intro i hi
    simpa using not_lt.mpr (hall i (hperm.mem_iff.mp hi))
  · intro j hj hjt
    have hsome : ((Intersections.new l).data.find?
        (fun i => decide (0 < i.t))).isSome := by
      rw [List.find?_isSome]
      exact ⟨j, hperm.mem_iff.mpr hj, by simpa using hjt⟩
    obtain ⟨x, hx⟩ := Option.isSome_iff_exists.mp hsome
    refine ⟨x, hx, by simpa using List.find?_some hx, ?_⟩
    intro i hi hit
    exact find?_pos_min hsorted hx i (hperm.mem_iff.mpr hi) hit
  · with_unfolding_all rfl

/-- C1 witness: the example collection, through the theorem itself. -/
theorem hit_smallest_positive_witness :
    ∃ x, (Intersections.new hitExample).hit = some x ∧ 0 < x.t ∧
      ∀ i ∈ hitExample, 0 < i.t → x.t ≤ i.t :=
  (hit_smallest_positive hitExample).2.1 (defaultSphere.intersection 2)
    (by simp [hitExample]) (by decide)

/-- C7: the collection built by the `Intersections` constructor is
non-decreasing in `t` at every pair of indices `i ≤ j`. -/
theorem intersections_new_sorted (l : List Intersection) (i j : ℕ)
    (hij : i ≤ j) (hj : j < (Intersections.new l).data.length) :
    ((Intersections.new l).data.getD i dummyIntersection).t ≤
      ((Intersections.new l).data.getD j dummyIntersection).t := by
  have hi : i < (Intersections.new l).data.length := lt_of_le_of_lt hij hj
  have hsorted := List.sorted_insertionSort tLE l
  have hrel := List.Sorted.rel_get_of_le hsorted
    (a := ⟨i, hi⟩) (b := ⟨j, hj⟩) hij
  rw [List.getD_eq_getElem?_getD, List.getD_eq_getElem?_getD,
    List.getElem?_eq_getElem hi, List.getElem?_eq_getElem hj]
  exact hrel

/-- C7 witness: the example collection at indices 0 ≤ 1, through the
theorem itself. -/
theorem intersections_new_sorted_witness :
    ((Intersections.new hitExample).data.getD 0 dummyIntersection).t ≤
      ((Intersections.new hitExample).data.getD 1 dummyIntersection).t :=
  intersections_new_sorted hitExample 0 1 (by decide) (by decide)

/-! ## C3: the refraction-stack scenario -/

/-- `Material::default().set_refractive_index(ri)`. -/
def glassMaterial (ri : ℚ) : Material := { Material.default with refractive_index := ri }

/-- Outer glass sphere: scaled by 2, refractive index 1.5. -/
def sphereA : Shape := Sphere.new 1 (Matrix4.identity.scaling 2 2 2) (glassMaterial (3 / 2))

/-- Middle glass sphere: translated to z = −0.25, refractive index 2. -/
def sphereB : Shape :=
  Sphere.new 2 (Matrix4.identity.translation 0 0 (-1 / 4)) (glassMaterial 2)

/-- Inner glass sphere: translated to z = 0.25, refractive index 2.5. -/
def sphereC : Shape :=
  Sphere.new 3 (Matrix4.identity.translation 0 0 (1 / 4)) (glassMaterial (5 / 2))

def refractionWorld : World := ⟨none, [sphereA, sphereB, sphereC]⟩

/-- The fixed ray of the scenario: origin (0, 0, −4), direction (0, 0, 1). -/
def refractionRay : Ray := ⟨Tuple.point 0 0 (-4), Tuple.vector 0 0 1⟩

/-- The six sorted hits of the three concentric spheres along the ray. -/
def refractionHits : Intersections := refractionWorld.intersect_world refractionRay

/-- C3: the three concentric glass spheres (indices 1.5, 2, 2.5) meet the
fixed ray in six sorted hits at t = 2, 2.75, 3.25, 4.75, 5.25, 6, and
`prepare_computations` at each hit in order yields the (n1, n2) pairs
(1, 1.5), (1.5, 2), (2, 2.5), (2.5, 2.5), (2.5, 1.5), (1.5, 1). -/
theorem refraction_stack_pairs :
    refractionHits.data.map (fun i => i.t) = [2, 11/4, 13/4, 19/4, 21/4, 6] ∧
    refractionHits.data.map
        (fun i => ((i.prepare_computations refractionRay refractionHits).n1,
          (i.prepare_computations refractionRay refractionHits).n2)) =
      [(some 1, some (3/2)), (some (3/2), some 2), (some 2, some (5/2)),
       (some (5/2), some (5/2)), (some (5/2), some (3/2)), (some (3/2), some 1)] := by
  constructor
  · with_unfolding_all rfl
  · with_unfolding_all rfl

/-! ## C10: a target missing from the intersection list -/

lemma refractionWalk_not_found (self : Intersection) :
    ∀ (l : List Intersection) (containers : List Shape),
      (∀ i ∈ l, Intersection.beq i self = false) →
      refractionWalk self l containers = (none, none) := by
  intro l
  induction l with
  | nil => intro containers _; rfl
  | cons a rest ih =>
    intro containers h
    have ha : Intersection.beq a self = false := h a (List.mem_cons_self a rest)
    simp only [refractionWalk, ha, Bool.false_eq_true, if_false]
    exact ih _ (fun i hi => h i (List.mem_cons_of_mem a hi))

/-- C10: when no element of the supplied collection equals the target
intersection, the `(n1, n2)` fields of the result keep their `f64::NAN`
initial values (modelled by `none`) instead of the vacuum index `1.0`,
while every geometric field agrees with the one computed against the
empty default collection, i.e. depends on the ray and the target alone. -/
theorem prepare_computations_target_missing (self : Intersection) (ray : Ray)
    (xs : Intersections)
    (h : ∀ i ∈ xs.data, Intersection.beq i self = false) :
    (self.prepare_computations ray xs).n1 = none ∧
    (self.prepare_computations ray xs).n2 = none ∧
    (self.prepare_computations ray xs).point =
      (self.prepare_computations ray Intersections.default).point ∧
    (self.prepare_computations ray xs).over_point =
      (self.prepare_computations ray Intersections.default).over_point ∧
    (self.prepare_computations ray xs).under_point =
      (self.prepare_computations ray Intersections.default).under_point ∧
    (self.prepare_computations ray xs).normalv =
      (self.prepare_computations ray Intersections.default).normalv ∧
    (self.prepare_computations ray xs).eyev =
      (self.prepare_computations ray Intersections.default).eyev ∧
    (self.prepare_computations ray xs).reflectv =
      (self.prepare_computations ray Intersections.default).reflectv ∧
    (self.prepare_computations ray xs).inside =
      (self.prepare_computations ray Intersections.default).inside := by
  have hwalk := refractionWalk_not_found self xs.data [] h
  refine ⟨?_, ?_, rfl, rfl, rfl, rfl, rfl, rfl, rfl⟩
  · show (refractionWalk self xs.data []).1 = none
    rw [hwalk]
  · show (refractionWalk self xs.data []).2 = none
    rw [hwalk]

/-- C10 witness: a sphere intersection prepared against the empty default
collection, through the theorem itself. -/
theorem prepare_computations_target_missing_witness :
    ((defaultSphere.intersection 4).prepare_computations
        ⟨Tuple.point 0 0 (-5), Tuple.vector 0 0 1⟩ Intersections.default).n1 = none ∧
    ((defaultSphere.intersection 4).prepare_computations
        ⟨Tuple.point 0 0 (-5), Tuple.vector 0 0 1⟩ Intersections.default).n2 = none :=
  ⟨(prepare_computations_target_missing (defaultSphere.intersection 4)
      ⟨Tuple.point 0 0 (-5), Tuple.vector 0 0 1⟩ Intersections.default
      (by intro i hi; simp [Intersections.default, Intersections.new] at hi)).1,
   (prepare_computations_target_missing (defaultSphere.intersection 4)
      ⟨Tuple.point 0 0 (-5), Tuple.vector 0 0 1⟩ Intersections.default
      (by intro i hi; simp [Intersections.default, Intersections.new] at hi)).2.1⟩

/-! ## C4: the Schlick approximation -/

/-- C4: on actual (non-NaN) refractive indices, `schlick()` returns
exactly `1` under total internal reflection (`n1 > n2` and refracted
`sin² > 1`), and otherwise `r0 + (1 - r0) * (1 - cos)^5` with
`r0 = ((n1 - n2) / (n1 + n2))²`, where `cos` is the cosine the
approximation uses — the transmitted cosine when `n1 > n2` (the code
reassigns `cos` in that branch), the incident cosine otherwise. -/
theorem schlick_spec (c : ComputedIntersection) (a b : ℚ)
    (h1 : c.n1 = some a) (h2 : c.n2 = some b) :
    (b < a ∧ 1 < powf (a / b) 2 * (1 - powf (Tuple.dot c.eyev c.normalv) 2) →
      c.schlick = some 1) ∧
    (¬(b < a ∧ 1 < powf (a / b) 2 * (1 - powf (Tuple.dot c.eyev c.normalv) 2)) →
      c.schlick = some
        (powf ((a - b) / (a + b)) 2 +
          (1 - powf ((a - b) / (a + b)) 2) *
            powf (1 -
              (if b < a then
                fsqrt (1 - powf (a / b) 2 * (1 - powf (Tuple.dot c.eyev c.normalv) 2))
              else Tuple.dot c.eyev c.normalv)) 5)) := by
  constructor
  · rintro ⟨hb, hs⟩
    simp [ComputedIntersection.schlick, h1, h2, schlickAux, hb, hs]
  · intro h
    by_cases hb : b < a
    · have hs : ¬(1 < powf (a / b) 2 * (1 - powf (Tuple.dot c.eyev c.normalv) 2)) :=
        fun hs => h ⟨hb, hs⟩
      simp [ComputedIntersection.schlick, h1, h2, schlickAux, schlickR0, hb, hs]
    · simp [ComputedIntersection.schlick, h1, h2, schlickAux, schlickR0, hb]

/-- A `ComputedIntersection` in total-internal-reflection geometry:
`n1 = 1.5 > n2 = 1`, eye perpendicular to the normal. -/
def schlickTIRExample : ComputedIntersection :=
  ⟨0, defaultSphere, Tuple.point 0 0 0, Tuple.point 0 0 0, Tuple.point 0 0 0,
   Tuple.vector 1 0 0, Tuple.vector 0 1 0, Tuple.vector 0 0 0, false,
   some (3 / 2), some 1⟩

/-- C4 witness: total internal reflection yields exactly `1`, through the
theorem itself. -/
theorem schlick_spec_witness : schlickTIRExample.schlick = some 1 :=
  (schlick_spec schlickTIRExample (3 / 2) 1 rfl rfl).1 (by with_unfolding_all decide)

/-! ## C5: the shadow gate in `lighting` -/

/-- C5: with `in_shadow = true`, `lighting` returns exactly the ambient
term — the pattern-or-base color times the light intensity times the
ambient coefficient — and in particular is unchanged by any values of the
diffuse, specular and shininess inputs. -/
theorem lighting_shadow_ambient (m : Material) (object : Shape) (light : Light)
    (point eyev normalv : Tuple) :
    m.lighting object light point eyev normalv true =
      (match m.pattern with
       | some pattern => pattern.pattern_at_shape object point
       | none => m.color) * light.intensity * m.ambient ∧
    ∀ d s sh : ℚ,
      ({ m with diffuse := d, specular := s, shininess := sh } : Material).lighting
          object light point eyev normalv true =
        m.lighting object light point eyev normalv true := by
  exact ⟨rfl, fun d s sh => rfl⟩

/-! ## C6: recursion termination at depth 0 -/

/-- C6: with `remaining = 0`, `reflected_color` and `refracted_color`
both return black, for every world and every computed intersection,
regardless of the material's reflective and transparency coefficients. -/
theorem reflected_refracted_zero_black (w : World) (comps : ComputedIntersection) :
    w.reflected_color comps 0 = some Color.new_black ∧
    w.refracted_color comps 0 = some Color.new_black := by
  constructor
  · simp [World.reflected_color, World.reflectedColorAux]
  · simp [World.refracted_color, World.refractedColorAux]

/-! ## C2: missing light / empty primitive list -/

/-- A world with no light but a nonempty primitive list. -/
def noLightWorld : World := ⟨none, [defaultSphere]⟩

/-- A ray that hits the default sphere (at t = 4 and t = 6). -/
def hitRay : Ray := ⟨Tuple.point 0 0 (-5), Tuple.vector 0 0 1⟩

/-- A world with a light and an empty primitive list. -/
def emptyWorld : World := ⟨some ⟨Tuple.point 0 0 0, Color.new_white⟩, []⟩

/-- C2 counterexample: a world whose light is absent but whose primitive
list is nonempty does not render black — `color_at` reaches the
`self.light.as_ref().unwrap()` panic (modelled by `none`) as soon as the
ray hits a primitive. -/
theorem color_at_missing_light_aborts :
    noLightWorld.light = none ∧ noLightWorld.objects ≠ [] ∧
      noLightWorld.color_at 5 hitRay = none := by
  refine ⟨rfl, by simp [noLightWorld], ?_⟩
  with_unfolding_all rfl

/-- C2 amended: a world with an empty primitive list renders solid black
for every ray and depth without aborting; a world whose light is absent
returns black for a ray that hits nothing, but aborts (light unwrap
panic, modelled by `none`) on any ray that yields a hit. -/
theorem color_at_trivial_render :
    (∀ (w : World) (ray : Ray) (remaining : ℕ), w.objects = [] →
      w.color_at remaining ray = some Color.new_black) ∧
    (∀ (w : World) (ray : Ray) (remaining : ℕ),
      (w.intersect_world ray).hit = none →
      w.color_at remaining ray = some Color.new_black) ∧
    (∀ (w : World) (ray : Ray) (remaining : ℕ) (i : Intersection), w.light = none →
      (w.intersect_world ray).hit = some i →
      w.color_at remaining ray = none) := by
  have hEmptyHit : ∀ (w : World) (ray : Ray), w.objects = [] →
      (w.intersect_world ray).hit = none := by
    intro w ray hobj
    simp [World.intersect_world, hobj, Intersections.new, Intersections.hit,
      List.insertionSort]
  refine ⟨?_, ?_, ?_⟩
  · intro w ray remaining hobj
    have hhit := hEmptyHit w ray hobj
    cases remaining with
    | zero => simp [World.color_at, World.colorAtAux, hhit]
    | succ n => simp [World.color_at, World.colorAtAux, hhit]
  · intro w ray remaining hhit
    cases remaining with
    | zero => simp [World.color_at, World.colorAtAux, hhit]
    | succ n => simp [World.color_at, World.colorAtAux, hhit]
  · intro w ray remaining i hlight hhit
    cases remaining with
    | zero =>
      simp [World.color_at, World.colorAtAux, hhit, World.shadeHitAux,
        World.is_shadowed, hlight]
    | succ n =>
      simp [World.color_at, World.colorAtAux, hhit, World.shadeHitAux,
        World.is_shadowed, hlight]

/-- C2 witness: the empty world renders black on the example ray,
through the amended theorem itself. -/
theorem color_at_trivial_render_witness :
    emptyWorld.color_at 5 hitRay = some Color.new_black :=
  color_at_trivial_render.1 emptyWorld hitRay 5 rfl

/-! ## C8: plane intersection -/

/-- C8: `Plane::local_intersect` misses exactly when the absolute value
of the local ray direction's y-component is below `EPSILON` (an expected
miss, not an error), and otherwise returns exactly one intersection with
`t = -origin.y / direction.y`. -/
theorem plane_local_intersect_spec (pid : ℕ) (tr : Matrix4) (mat : Material)
    (ray : Ray) :
    ((Plane.new pid tr mat).local_intersect ray = none ↔
      |ray.direction.y| < EPSILON) ∧
    (EPSILON ≤ |ray.direction.y| →
      (Plane.new pid tr mat).local_intersect ray =
        some [(Plane.new pid tr mat).intersection
          (-ray.origin.y / ray.direction.y)]) := by
  constructor
  · by_cases h : |ray.direction.y| < EPSILON
    · simp [Shape.local_intersect, Plane.new, planeLocalIntersectT, h]
    · simp [Shape.local_intersect, Plane.new, planeLocalIntersectT, h]
  · intro h
    simp [Shape.local_intersect, Plane.new, planeLocalIntersectT, not_lt.mpr h,
      Shape.intersection]

/-- C8 witness: a ray from (0, 1, 0) straight down meets the default
plane in exactly one root, through the theorem itself (and that root is
t = 1). -/
theorem plane_local_intersect_spec_witness :
    ((Plane.new 7 Matrix4.identity Material.default).local_intersect
        ⟨Tuple.point 0 1 0, Tuple.vector 0 (-1) 0⟩ =
      some [(Plane.new 7 Matrix4.identity Material.default).intersection
        (-(Tuple.point 0 1 0).y / (Tuple.vector 0 (-1) 0).y)]) ∧
    -(Tuple.point 0 1 0).y / (Tuple.vector 0 (-1) 0).y = 1 :=
  ⟨(plane_local_intersect_spec 7 Matrix4.identity Material.default
      ⟨Tuple.point 0 1 0, Tuple.vector 0 (-1) 0⟩).2 (by with_unfolding_all decide),
   by with_unfolding_all rfl⟩

/-! ## C9: the render loop -/

lemma rowAddr_ne {W x x' y y' : ℕ} (hx : x < W) (hx' : x' < W) (hyy : y ≠ y') :
    y * W + x ≠ y' * W + x' := by
  rcases Nat.lt_trichotomy y y' with hlt | heq | hgt
  · have h1 : y * W + x < (y + 1) * W := by
      rw [Nat.succ_mul]
      exact Nat.add_lt_add_left hx _
    have h2 : (y + 1) * W ≤ y' * W := Nat.mul_le_mul_right W (Nat.succ_le_of_lt hlt)
    exact Nat.ne_of_lt (lt_of_lt_of_le h1 (le_trans h2 (Nat.le_add_right _ _)))
  · exact absurd heq hyy
  · have h1 : y' * W + x' < (y' + 1) * W := by
      rw [Nat.succ_mul]
      exact Nat.add_lt_add_left hx' _
    have h2 : (y' + 1) * W ≤ y * W := Nat.mul_le_mul_right W (Nat.succ_le_of_lt hgt)
    exact (Nat.ne_of_lt (lt_of_lt_of_le h1 (le_trans h2 (Nat.le_add_right _ _)))).symm

/-- One row of `render`: each processed column `x` writes the pixel at
flat index `y * width + x` with the color `color_at` returned for its
ray, leaves every other index unchanged, and preserves the canvas
dimensions. -/
lemma renderRow_spec (cam : Camera) (w : World) (y : ℕ) :
    ∀ (xs : List ℕ) (img img' : Canvas),
      xs.foldlM (fun i2 x => cam.renderPixel w i2 x y) img = some img' →
      (img'.width = img.width ∧ img'.height = img.height ∧
        img'.pixels.length = img.pixels.length) ∧
      (∀ i : ℕ, (∀ x ∈ xs, i ≠ y * img.width + x) →
        img'.pixels[i]? = img.pixels[i]?) ∧
      (xs.Nodup → ∀ x ∈ xs,
        ∃ col, w.color_at 5 (cam.ray_for_pixel x y) = some col ∧
          img'.pixels[y * img.width + x]? =
            if y * img.width + x < img.pixels.length then some col else none) := by
  intro xs
  induction xs with
  | nil =>
    intro img img' h
    simp only [List.foldlM_nil, pure, Option.some.injEq] at h
    subst h
    exact ⟨⟨rfl, rfl, rfl⟩, fun i _ => rfl, fun _ x hx => absurd hx (List.not_mem_nil x)⟩
  | cons x xs ih =>
    intro img img' h
    rw [List.foldlM_cons] at h
    cases hc : w.color_at 5 (cam.ray_for_pixel x y) with
    | none => rw [Camera.renderPixel, hc] at h; simp at h
    | some col =>
      rw [Camera.renderPixel, hc] at h
      simp only [Option.bind_eq_bind, Option.some_bind] at h
      have hW : (img.set x y col).width = img.width := rfl
      have hH : (img.set x y col).height = img.height := rfl
      have hL : (img.set x y col).pixels.length = img.pixels.length :=
        List.length_set _ _ _
      obtain ⟨⟨ihW, ihH, ihL⟩, ihPres, ihWrite⟩ := ih (img.set x y col) img' h
      refine ⟨⟨ihW.trans hW, ihH.trans hH, ihL.trans hL⟩, ?_, ?_⟩
      · intro i hi
        have h1 : img'.pixels[i]? = (img.set x y col).pixels[i]? := by
          apply ihPres
          intro x' hx'
          rw [hW]
          exact hi x' (List.mem_cons_of_mem x hx')
        rw [h1]
        show (img.pixels.set (y * img.width + x) col)[i]? = img.pixels[i]?
        exact List.getElem?_set_ne (fun hne => hi x (List.mem_cons_self x xs) hne.symm)
      · intro hnd x' hx'
        have hxnotin : x ∉ xs := (List.nodup_cons.mp hnd).1
        rcases List.mem_cons.mp hx' with rfl | hmem
        · refine ⟨col, hc, ?_⟩
          have h1 : img'.pixels[y * img.width + x']? =
              (img.set x' y col).pixels[y * img.width + x']? := by
            apply ihPres
            intro x'' hx''
            rw [hW]
            intro hEq
            exact hxnotin (Nat.add_left_cancel hEq ▸ hx'')
          rw [h1]
          show (img.pixels.set (y * img.width + x') col)[y * img.width + x']? = _
          rw [List.getElem?_set]
          simp
        · obtain ⟨col', hc', hpix⟩ := ihWrite (List.nodup_cons.mp hnd).2 x' hmem
          rw [hW] at hpix
          rw [hL] at hpix
          exact ⟨col', hc', hpix⟩

/-- All rows of `render`: each pixel (x, y) with `x < hsize` and a
processed row `y` holds the color `color_at` returned for its ray. -/
lemma renderRows_spec (cam : Camera) (w : World) :
    ∀ (ys : List ℕ) (img img' : Canvas),
      img.width = cam.hsize →
      ys.foldlM (fun image y =>
          (List.range cam.hsize).foldlM (fun i2 x => cam.renderPixel w i2 x y) image)
        img = some img' →
      (img'.width = img.width ∧ img'.pixels.length = img.pixels.length) ∧
      (∀ i : ℕ, (∀ y ∈ ys, ∀ x, x < cam.hsize → i ≠ y * img.width + x) →
        img'.pixels[i]? = img.pixels[i]?) ∧
      (ys.Nodup → ∀ y ∈ ys, ∀ x, x < cam.hsize →
        ∃ col, w.color_at 5 (cam.ray_for_pixel x y) = some col ∧
          img'.pixels[y * img.width + x]? =
            if y * img.width + x < img.pixels.length then some col else none) := by
  intro ys
  induction ys with
  | nil =>
    intro img img' hw h
    simp only [List.foldlM_nil, pure, Option.some.injEq] at h
    subst h
    exact ⟨⟨rfl, rfl⟩, fun i _ => rfl, fun _ y hy => absurd hy (List.not_mem_nil y)⟩
  | cons y ys ih =>
    intro img img' hw h
    rw [List.foldlM_cons] at h
    cases hrow : (List.range cam.hsize).foldlM
        (fun i2 x => cam.renderPixel w i2 x y) img with
    | none => rw [hrow] at h; simp at h
    | some img0 =>
      rw [hrow] at h
      simp only [Option.bind_eq_bind, Option.some_bind] at h
      obtain ⟨⟨rW, rH, rL⟩, rPres, rWrite⟩ :=
        renderRow_spec cam w y (List.range cam.hsize) img img0 hrow
      obtain ⟨⟨iW, iL⟩, iPres, iWrite⟩ := ih img0 img' (rW.trans hw) h
      refine ⟨⟨iW.trans rW, iL.trans rL⟩, ?_, ?_⟩
      · intro i hi
        have h1 : img'.pixels[i]? = img0.pixels[i]? := by
          apply iPres
          intro y' hy' x hx
          rw [rW]
          exact hi y' (List.mem_cons_of_mem y hy') x hx
        rw [h1]
        apply rPres
        intro x hx
        exact hi y (List.mem_cons_self y ys) x (List.mem_range.mp hx)
      · intro hnd y' hy' x hx
        have hynotin : y ∉ ys := (List.nodup_cons.mp hnd).1
        rcases List.mem_cons.mp hy' with rfl | hmem
        · obtain ⟨col, hc, hpix⟩ :=
            rWrite (List.nodup_range _) x (List.mem_range.mpr hx)
          refine ⟨col, hc, ?_⟩
          have h1 : img'.pixels[y' * img.width + x]? =
              img0.pixels[y' * img.width + x]? := by
            apply iPres
            intro y'' hy'' x' hx'
            rw [rW]
            rw [hw]
            exact rowAddr_ne hx hx' (fun hEq => hynotin (hEq ▸ hy''))
          rw [h1, hpix]
        · obtain ⟨col, hc, hpix⟩ := iWrite (List.nodup_cons.mp hnd).2 y' hmem x hx
          rw [rW] at hpix
          rw [rL] at hpix
          exact ⟨col, hc, hpix⟩

/-- C9: `render` fills the canvas so that each in-range pixel (x, y)
holds exactly `world.color_at(ray_for_pixel(x, y), 5)` — the recursion
depth is the constant 5, and each pixel is a pure function of the
camera, the world and its own coordinates alone. -/
theorem camera_render_pixel (cam : Camera) (w : World) (x y : ℕ) (canvas : Canvas)
    (hx : x < cam.hsize) (hy : y < cam.vsize)
    (hrender : cam.render w = some canvas) :
    w.color_at 5 (cam.ray_for_pixel x y) = some (canvas.get x y) := by
  obtain ⟨⟨hW, hL⟩, _, hwrite⟩ :=
    renderRows_spec cam w (List.range cam.vsize)
      (Canvas.new cam.hsize cam.vsize) canvas rfl hrender
  obtain ⟨col, hc, hpix⟩ :=
    hwrite (List.nodup_range _) y (List.mem_range.mpr hy) x hx
  have hlen : (Canvas.new cam.hsize cam.vsize).pixels.length =
      cam.hsize * cam.vsize := List.length_replicate _ _
  have hNW : (Canvas.new cam.hsize cam.vsize).width = cam.hsize := rfl
  have haddr : y * cam.hsize + x < cam.hsize * cam.vsize := by
    have h1 : y * cam.hsize + x < (y + 1) * cam.hsize := by
      rw [Nat.succ_mul]
      exact Nat.add_lt_add_left hx _
    have h2 : (y + 1) * cam.hsize ≤ cam.vsize * cam.hsize :=
      Nat.mul_le_mul_right _ (Nat.succ_le_of_lt hy)
    rw [Nat.mul_comm cam.hsize cam.vsize]
    exact lt_of_lt_of_le h1 h2
  rw [hlen] at hpix
  rw [hNW] at hpix
  rw [if_pos haddr] at hpix
  rw [hc]
  congr 1
  have hCW : canvas.width = cam.hsize := hW.trans hNW
  show col = canvas.pixels.getD (y * canvas.width + x) Color.new_black
  rw [hCW, List.getD_eq_getElem?_getD, hpix]
  rfl

/-- A 1×1 camera with the identity transform. -/
def unitCamera : Camera := ⟨1, 1, 0, 1, 1, 2, Matrix4.identity⟩

/-- C9 witness: rendering the empty world with the 1×1 camera produces
the one-pixel black canvas, and the theorem applied there identifies the
pixel with `color_at` of its ray. -/
theorem camera_render_pixel_witness :
    unitCamera.render emptyWorld = some ⟨1, 1, [Color.new_black]⟩ ∧
    emptyWorld.color_at 5 (unitCamera.ray_for_pixel 0 0) =
      some ((⟨1, 1, [Color.new_black]⟩ : Canvas).get 0 0) :=
  ⟨by with_unfolding_all rfl,
   camera_render_pixel unitCamera emptyWorld 0 0 ⟨1, 1, [Color.new_black]⟩
     (by decide) (by decide) (by with_unfolding_all rfl)⟩
